import Mathlib

/-!
Shallow embedding of the per-page extraction/normalization pipeline of
`src/pdf_excel_ingestor.py`, and proofs about its specification claims.

Python strings are embedded as `List Char`; `None`-able values as
`Option (List Char)`.  Python truthiness of an optional string (`if s:`)
is `pyTruthy`.  Regular-expression operations that the claims depend on
(`re.sub(r"[ \t\r\f\v]+", " ", s)`, `re.fullmatch(r"\d{2}", s)`, …) are
embedded by the standard run/character models written out below.
`str.isdigit`-class tests model Python's `\D`/`\d` on the ASCII digits
(the only digits the claims and the CPF arithmetic involve).
External libraries (dateutil parsing, unicodedata accent folding,
OCR subprocesses, pdfplumber page extraction) are parameters of the
embedding: the pipeline theorems hold for every instantiation of them.
-/

/-! ## Basic helpers (`strip_accents_lower` is external, `clean_digits` is ours) -/

/-- `clean_digits`: `re.sub(r"\D+", "", s or "")` keeps only digit characters. -/
def clean_digits (s : List Char) : List Char := s.filter Char.isDigit

/-- Python truthiness of an optional string: `None` and `""` are falsy. -/
def pyTruthy : Option (List Char) → Bool
  | none => false
  | some s => !s.isEmpty

/-- Python `str.isspace` for one character (the code points `str.strip()`
removes): U+0009–U+000D, U+001C–U+001F, space, U+0085, U+00A0, U+1680,
U+2000–U+200A, U+2028, U+2029, U+202F, U+205F, U+3000. -/
def pyIsSpace (c : Char) : Bool :=
  let n := c.toNat
  (9 ≤ n && n ≤ 13) || (28 ≤ n && n ≤ 31) || n == 32 || n == 0x85 || n == 0xA0 ||
    n == 0x1680 || (0x2000 ≤ n && n ≤ 0x200A) || n == 0x2028 || n == 0x2029 ||
    n == 0x202F || n == 0x205F || n == 0x3000

/-- Remove trailing whitespace (the right half of Python `str.strip()`). -/
def rstripWs : List Char → List Char
  | [] => []
  | c :: cs =>
    let r := rstripWs cs
    if r.isEmpty then (if pyIsSpace c then [] else [c]) else c :: r

/-- Python `str.strip()`: drop leading and trailing whitespace. -/
def pyStrip (s : List Char) : List Char := rstripWs (s.dropWhile pyIsSpace)

/-! ## `normalize_ws`: invisible-space removal and whitespace collapsing -/

/-- The `INVISIBLE_SPACES` list of the source, in source order. -/
def INVISIBLE_SPACES : List Char :=
  ['\u00A0', '\u202F', '\u2007', '\u2009', '\u200A', '\u200B', '\u200C',
   '\u200D', '\u2060', '\uFEFF', '\u2063', '\u00AD']

/-- The loop `for ch in INVISIBLE_SPACES: s = s.replace(ch, " ")`. -/
def replaceInvisibles (s : List Char) : List Char :=
  INVISIBLE_SPACES.foldl (fun t ch => t.map (fun c => if c = ch then ' ' else c)) s

/-- Pointwise form of the invisible-space replacement (proved equal to the
loop below). -/
def invisChar (c : Char) : Char := if c ∈ INVISIBLE_SPACES then ' ' else c

/-- The character class of the collapsing regex `[ \t\r\f\v]+` (note:
no `\n`). -/
def isWsRun (c : Char) : Bool :=
  c == ' ' || c == '\t' || c == '\r' || c == '\u000C' || c == '\u000B'

/-- `re.sub(r"[ \t\r\f\v]+", " ", s)`: each maximal run of class
characters becomes one ASCII space. -/
def collapse : List Char → List Char
  | [] => []
  | [c] => [if isWsRun c then ' ' else c]
  | c1 :: c2 :: rest =>
    if isWsRun c1 && isWsRun c2 then collapse (c2 :: rest)
    else (if isWsRun c1 then ' ' else c1) :: collapse (c2 :: rest)

/-- `normalize_ws` on an actual string. -/
def normWsCore (s : List Char) : List Char := pyStrip (collapse (replaceInvisibles s))

/-- `normalize_ws(s)`: non-string (`None`) input passes through unchanged. -/
def normalize_ws : Option (List Char) → Option (List Char)
  | none => none
  | some s => some (normWsCore s)

/-- Run-collapsing written as a left-to-right scan with an "inside a run"
flag: the formulation used for the specification side of the whitespace
claims. -/
def collapseAux (p : Char → Bool) : Bool → List Char → List Char
  | _, [] => []
  | inRun, c :: cs =>
    if p c then (if inRun then collapseAux p true cs else ' ' :: collapseAux p true cs)
    else c :: collapseAux p false cs

/-- Spec-side run collapsing over an arbitrary character class. -/
def collapseRuns (p : Char → Bool) (s : List Char) : List Char := collapseAux p false s

/-- Standard whitespace, as the claim's words have it: the collapse class
together with the newline. -/
def isStdWs (c : Char) : Bool := isWsRun c || c == '\n'

/-- The whitespace normalizer exactly as claim C7 words it: replace the
listed invisibles, collapse every run of standard whitespace (including
newlines) to one space, trim the ends. -/
def normWsClaimC7 (s : List Char) : List Char :=
  pyStrip (collapseRuns isStdWs (s.map invisChar))

/-- The amended C7 behaviour: as the claim, except that the collapse class
is exactly space/tab/CR/FF/VT — interior newlines are preserved. -/
def normWsAmendedC7 (s : List Char) : List Char :=
  pyStrip (collapseRuns isWsRun (s.map invisChar))

/-! ## Homoglyph repair and suspicious-glyph detection -/

/-- The fixed `HOMOGLYPH_MAP` table (Greek and Cyrillic look-alikes);
`str.translate` maps a code point to a replacement string. -/
def homoSub (c : Char) : List Char :=
  match c with
  | 'Α' => ['A'] | 'Β' => ['B'] | 'Ε' => ['E'] | 'Ζ' => ['Z'] | 'Η' => ['H']
  | 'Ι' => ['I'] | 'Κ' => ['K'] | 'Μ' => ['M'] | 'Ν' => ['N'] | 'Ο' => ['O']
  | 'Ρ' => ['R'] | 'Τ' => ['T'] | 'Υ' => ['Y'] | 'Χ' => ['X'] | 'Δ' => ['D']
  | 'Λ' => ['L'] | 'Σ' => ['S'] | 'Φ' => ['F'] | 'Θ' => ['T', 'h'] | 'Ξ' => ['X']
  | 'Ψ' => ['P', 's'] | 'Ω' => ['O']
  | 'ο' => ['o'] | 'ρ' => ['p'] | 'κ' => ['k'] | 'ι' => ['i'] | 'ν' => ['v']
  | 'χ' => ['x'] | 'τ' => ['t'] | 'μ' => ['m'] | 'υ' => ['y'] | 'σ' => ['s']
  | 'ς' => ['s'] | 'φ' => ['f'] | 'ψ' => ['p', 's']
  | 'А' => ['A'] | 'В' => ['B'] | 'Е' => ['E'] | 'К' => ['K'] | 'М' => ['M']
  | 'Н' => ['H'] | 'О' => ['O'] | 'Р' => ['P'] | 'С' => ['C'] | 'Т' => ['T']
  | 'У' => ['Y'] | 'Х' => ['X'] | 'І' => ['I']
  | 'а' => ['a'] | 'е' => ['e'] | 'к' => ['k'] | 'м' => ['m'] | 'н' => ['h']
  | 'о' => ['o'] | 'р' => ['p'] | 'с' => ['c'] | 'т' => ['t'] | 'у' => ['y']
  | 'х' => ['x'] | 'і' => ['i']
  | _ => [c]

/-- `s.translate(TRANSL_TABLE)` on a string. -/
def fixHomoStr (s : List Char) : List Char := (s.map homoSub).flatten

/-- `fix_homoglyphs`: falsy input (`None` or `""`) is returned unchanged. -/
def fix_homoglyphs : Option (List Char) → Option (List Char)
  | none => none
  | some s => if s.isEmpty then some s else some (fixHomoStr s)

/-- `looks_non_latin`: a Greek/Cyrillic code point, or any non-space code
point above U+024F. -/
def looks_non_latin (s : List Char) : Bool :=
  s.any (fun c =>
    (0x0370 ≤ c.toNat && c.toNat ≤ 0x03FF) || (0x0400 ≤ c.toNat && c.toNat ≤ 0x04FF) ||
      (0x024F < c.toNat && !pyIsSpace c))

/-! ## CPF validation -/

/-- `int(d)` for a digit character. -/
def digitVal (c : Char) : Nat := c.toNat - 48

/-- `sum(int(d) * w for d, w in zip(digs, range(len(digs) + 1, 1, -1)))`:
the weight starts at `len + 1` and counts down. -/
def weightedSum : List Char → Nat → Nat
  | [], _ => 0
  | c :: cs, w => digitVal c * w + weightedSum cs (w - 1)

/-- The inner `dig` of `cpf_is_valid`: weighted sum, `(s * 10) % 11`,
remainder 10 mapped to 0. -/
def dig (digs : List Char) : Nat :=
  let r := (weightedSum digs (digs.length + 1) * 10) % 11
  if r = 10 then 0 else r

/-- `cpf_is_valid`: strip non-digits, reject wrong length or eleven equal
digits, then compare the last two characters against the rendered check
digits (the second computed over the first nine digits followed by the
rendered first check digit). -/
def cpf_is_valid (cpf : List Char) : Bool :=
  let c := clean_digits cpf
  if c.length ≠ 11 then false
  else if c = List.replicate 11 c.headI then false
  else c.drop (c.length - 2) =
    (Nat.repr (dig (c.take 9))).toList ++
      (Nat.repr (dig (c.take 9 ++ (Nat.repr (dig (c.take 9))).toList))).toList

/-- The f-string `f"{d[0:3]}.{d[3:6]}.{d[6:9]}-{d[9:11]}"`. -/
def cpfFormat (d : List Char) : List Char :=
  d.take 3 ++ '.' :: ((d.drop 3).take 3) ++ '.' :: ((d.drop 6).take 3) ++
    '-' :: ((d.drop 9).take 2)

/-- `normalize_cpf`: `None` unless the digits pass `cpf_is_valid`. -/
def normalize_cpf (cpf : List Char) : Option (List Char) :=
  let d := clean_digits cpf
  if d.length ≠ 11 ∨ ¬ cpf_is_valid d then none
  else some (cpfFormat d)

/-- Claim C1's acceptance condition, in its own words: eleven digits, not
all identical, and each of the two supplied check digits is the weighted
modulo-11 digit of the first nine, respectively first ten, digits. -/
def cpfSpecAccepts (s : List Char) : Prop :=
  let d := clean_digits s
  d.length = 11 ∧ ¬ (∀ c ∈ d, c = d.headI) ∧
    d.getD 9 ' ' = Nat.digitChar (dig (d.take 9)) ∧
    d.getD 10 ' ' = Nat.digitChar (dig (d.take 10))

instance (s : List Char) : Decidable (cpfSpecAccepts s) := by
  unfold cpfSpecAccepts; infer_instance

/-! ## The other stateless validators -/

/-- `normalize_cnpj`: fourteen digits get the canonical mask, anything
else falls back to the whitespace-normalized raw string (or `None` for a
falsy argument). -/
def normalize_cnpj (cnpj : List Char) : Option (List Char) :=
  let d := clean_digits cnpj
  if d.length ≠ 14 then (if cnpj.isEmpty then none else some (normWsCore cnpj))
  else some (d.take 2 ++ '.' :: ((d.drop 2).take 3) ++ '.' :: ((d.drop 5).take 3) ++
    '/' :: ((d.drop 8).take 4) ++ '-' :: ((d.drop 12).take 2))

/-- `normalize_cep`: eight digits get `NNNNN-NNN`, anything else the
whitespace-normalized raw string. -/
def normalize_cep (val : List Char) : Option (List Char) :=
  if val.isEmpty then none
  else
    let d := clean_digits val
    if d.length = 8 then some (d.take 5 ++ '-' :: d.drop 5) else some (normWsCore val)

/-- `normalize_pis`: digits-only, accepted only at exactly eleven digits. -/
def normalize_pis (val : List Char) : Option (List Char) :=
  if val.isEmpty then none
  else
    let d := clean_digits val
    if d.length = 11 then some d else none

/-- `normalize_phone`, line for line: clean both arguments, drop a DDD
that is not exactly two digits, re-shape the subscriber number by length
(pad a 9 at 8 digits, drop the embedded area code at 10/11 digits), then
derive a missing DDD from the first two digits of the *processed* number,
and finally format a nine-digit number as `NNNNN-NNNN`. -/
def normalize_phone (ddd fone : Option (List Char)) :
    Option (List Char) × Option (List Char) :=
  let ddd_d : Option (List Char) :=
    if pyTruthy ddd then some (clean_digits (ddd.getD [])) else none
  let cel_d : Option (List Char) :=
    if pyTruthy fone then some (clean_digits (fone.getD [])) else none
  let ddd_d : Option (List Char) :=
    if pyTruthy ddd_d ∧ (ddd_d.getD []).length = 2 then ddd_d else none
  let step : Option (List Char) × Option (List Char) :=
    if pyTruthy cel_d then
      let c0 := cel_d.getD []
      let c1 :=
        if c0.length = 8 ∨ c0.length = 9 then (if c0.length = 8 then '9' :: c0 else c0)
        else if c0.length = 10 ∨ c0.length = 11 then
          (if c0.length = 10 then '9' :: c0.drop 2 else c0.drop 2)
        else c0
      let ddd_d := if ¬ pyTruthy ddd_d then some (c1.take 2) else ddd_d
      (ddd_d, some c1)
    else (ddd_d, cel_d)
  let ddd_d := step.1
  let cel_d := step.2
  if pyTruthy cel_d ∧ (cel_d.getD []).length = 9 then
    (ddd_d, some ((cel_d.getD []).take 5 ++ '-' :: (cel_d.getD []).drop 5))
  else (ddd_d, cel_d)

/-- `re.fullmatch(r"\d{2}", s)`. -/
def isTwoDigits (s : List Char) : Bool := s.length = 2 && s.all Char.isDigit

/-- `re.fullmatch(r"\d{5}-\d{4}", s)`. -/
def isCelCanonical (s : List Char) : Bool :=
  s.length = 10 && (s.take 5).all Char.isDigit && s.getD 5 ' ' == '-' &&
    (s.drop 6).all Char.isDigit

/-- `"24" in key`. -/
def contains24 : List Char → Bool
  | '2' :: '4' :: _ => true
  | _ :: cs => contains24 cs
  | [] => false

/-! ## The record pipeline

A row is the Python `Dict[str, Optional[str]]`: a total map from key to
optional string, `None` standing for a missing or null entry.  External
collaborators of `clean_and_normalize` / `fix_names_if_needed` — accent
folding and case mapping (`unicodedata`, `str.upper`, `str.title`),
`dateutil` parsing plus `strftime`, and the per-page OCR subprocess
chain — are fields of `ExtDeps`, so every pipeline theorem is proved for all
of their behaviours. -/

/-- A record: the per-page `Dict[str, Optional[str]]`. -/
abbrev RecordRow := String → Option (List Char)

/-- `row[k] = v`. -/
def upd (r : RecordRow) (k : String) (v : Option (List Char)) : RecordRow :=
  fun k' => if k' = k then v else r k'

/-- `row[k] = f(row.get(k))`. -/
def updWith (r : RecordRow) (k : String) (f : Option (List Char) → Option (List Char)) :
    RecordRow :=
  upd r k (f (r k))

/-- External collaborators of the pipeline (third-party libraries and
subprocesses), abstracted as functions. -/
structure ExtDeps where
  accentFold : List Char → List Char
  pyUpper : List Char → List Char
  pyTitle : List Char → List Char
  dateParse : List Char → Option (List Char)
  ocrPage : List Char → Option (List Char)

/-- The parts of the YAML `Config` that `clean_and_normalize` reads.  The
two normalization maps are the (accent-folded-key) dictionaries, as
lookup functions. -/
structure Config where
  required_fields : List String
  norm_sexo_map : List Char → Option (List Char)
  norm_inclusao_map : List Char → Option (List Char)

/-- `normalize_date`: separator repair then the (external) day-first
parse-and-format; falsy input and every parse failure give `None`. -/
def normalize_date (ext : ExtDeps) (s : List Char) : Option (List Char) :=
  if s.isEmpty then none
  else
    ext.dateParse
      ((((normWsCore s).map (fun c => if c = '\\' then '/' else c)).map
          (fun c => if c = '-' then '/' else c)).map
        (fun c => if c = '.' then '/' else c))

/-- `normalize_sexo`: accent-folded, stripped key into the map, falling
back to the upper-cased stripped raw value. -/
def normalize_sexo (ext : ExtDeps) (cfg : Config) (val : List Char) : Option (List Char) :=
  if val.isEmpty then none
  else
    let key := pyStrip (ext.accentFold val)
    some ((cfg.norm_sexo_map key).getD (pyStrip (ext.pyUpper val)))

/-- `normalize_inclusao`: space-free accent-folded key; any key containing
`"24"` is the `24h` entry; otherwise map lookup with a title-cased
whitespace-normalized fallback. -/
def normalize_inclusao (ext : ExtDeps) (cfg : Config) (val : List Char) : Option (List Char) :=
  if val.isEmpty then none
  else
    let key := (ext.accentFold val).filter (fun c => c ≠ ' ')
    if contains24 key then
      some ((cfg.norm_inclusao_map (String.toList "24h")).getD (String.toList "24h"))
    else some ((cfg.norm_inclusao_map key).getD (ext.pyTitle (normWsCore val)))

/-- The three name keys, in the tuple order of the source. -/
def nameKeys : List String := ["mae_nome", "beneficiario_nome", "titular_nome"]

/-- `fix_names_if_needed`: without suspect glyphs (and no force flag) the
names are homoglyph-repaired in place; otherwise a single-page OCR
re-extraction overwrites exactly the name fields it populated, and if no
OCR backend produced text the homoglyph repair is applied instead. -/
def fix_names_if_needed (extractF : List Char → RecordRow) (ocrText : Option (List Char))
    (force : Bool) (row : RecordRow) : RecordRow :=
  let need := force || nameKeys.any (fun k => looks_non_latin ((row k).getD []))
  if !need then nameKeys.foldl (fun r k => updWith r k fix_homoglyphs) row
  else
    match ocrText with
    | none => nameKeys.foldl (fun r k => updWith r k fix_homoglyphs) row
    | some t =>
      let re_row := extractF t
      nameKeys.foldl (fun r k => if pyTruthy (re_row k) then upd r k (re_row k) else r) row

/-- One date field of the loop over `("nascimento", "data_admissao")`:
normalize when present, then record an issue when absent or unparsable. -/
def dateStep (ext : ExtDeps) (ri : RecordRow × List String) (k : String) :
    RecordRow × List String :=
  let r := ri.1
  let r' := if pyTruthy (r k) then upd r k (normalize_date ext ((r k).getD [])) else r
  (r', if pyTruthy (r' k) then ri.2
    else ri.2 ++ [("Data inválida/ausente: " ++ k : String)])

/-- `row.get(k) and str(row[k]).strip()` of the required-field check. -/
def requiredOK (v : Option (List Char)) : Bool :=
  pyTruthy v && !(pyStrip (v.getD [])).isEmpty

/-- `clean_and_normalize`, step for step: homoglyph-repair the three name
fields, validate/normalize CPF, the two dates, sex, inclusion type, CNPJ,
CEP, PIS and the phone pair (with the two full-match post-filters), sweep
every string value through `normalize_ws`, then append an issue for every
required field that is missing or blank. -/
def clean_and_normalize (ext : ExtDeps) (cfg : Config) (row0 : RecordRow) :
    RecordRow × List String :=
  let r := nameKeys.foldl (fun r k => updWith r k fix_homoglyphs) row0
  let r := upd r "cpf" (normalize_cpf ((r "cpf").getD []))
  let issues : List String :=
    if pyTruthy (r "cpf") then [] else ["CPF inválido/ausente"]
  let ri := ["nascimento", "data_admissao"].foldl (dateStep ext) (r, issues)
  let r := ri.1
  let issues := ri.2
  let r := if pyTruthy (r "sexo") then
      upd r "sexo" (normalize_sexo ext cfg ((r "sexo").getD [])) else r
  let r := if pyTruthy (r "beneficiario_inclusao") then
      upd r "beneficiario_inclusao"
        (normalize_inclusao ext cfg ((r "beneficiario_inclusao").getD [])) else r
  let r := if pyTruthy (r "beneficiario_cnpj_lotacao") then
      upd r "beneficiario_cnpj_lotacao"
        (normalize_cnpj ((r "beneficiario_cnpj_lotacao").getD [])) else r
  let r := if pyTruthy (r "cep") then
      upd r "cep" (normalize_cep ((r "cep").getD [])) else r
  let r := if pyTruthy (r "pis") then
      upd r "pis" (normalize_pis ((r "pis").getD [])) else r
  let pc := normalize_phone (r "ddd") (r "celular")
  let r := upd (upd r "ddd" pc.1) "celular" pc.2
  let r := if pyTruthy (r "ddd") && !isTwoDigits ((r "ddd").getD []) then
      upd r "ddd" none else r
  let r := if pyTruthy (r "celular") && !isCelCanonical ((r "celular").getD []) then
      upd r "celular" none else r
  let r : RecordRow := fun k => (r k).map normWsCore
  let issues := cfg.required_fields.foldl
    (fun acc k => if requiredOK (r k) then acc
      else acc ++ [("Campo obrigatório ausente: " ++ k : String)]) issues
  (r, issues)

/-! ## The main loop: page processing, dedupe, run state -/

/-- A dedupe key: (digits-only CPF, stripped registration number). -/
abbrev DKey := List Char × List Char

/-- The key the main loop computes for a finalized row. -/
def keyOf (row : RecordRow) : DKey :=
  (clean_digits ((row "cpf").getD []), pyStrip ((row "titular_matricula").getD []))

/-- The accumulating state of the run: accepted rows, rejected rows with
their issues, and the same-run dedupe key set. -/
structure RunState where
  rows_ok : List RecordRow
  rows_err : List (RecordRow × List String)
  seen : List DKey

/-- `read_existing_keys_from_xlsx`'s row loop over the (cpf, matricula)
cell pairs: digits-only CPF and stripped registration number, kept only
when both are non-empty. -/
def read_existing_keys (cells : List (Option (List Char) × Option (List Char))) :
    List DKey :=
  cells.foldl
    (fun acc vc =>
      let cpf_d := clean_digits (vc.1.getD [])
      let mat := pyStrip (vc.2.getD [])
      if cpf_d ≠ [] ∧ mat ≠ [] then acc ++ [(cpf_d, mat)] else acc) []

/-- The dedupe-and-store tail of the page loop (source lines 1074–1091):
skip a prior-output duplicate, flag a same-run duplicate, then file the
row under accepted or rejected, remembering the key only on acceptance. -/
def classifyStep (existing : List DKey) (st : RunState) (ri : RecordRow × List String) :
    RunState :=
  let row := ri.1
  let cpf_d := (keyOf row).1
  let mat := (keyOf row).2
  let key : DKey := (cpf_d, mat)
  if cpf_d ≠ [] ∧ mat ≠ [] ∧ key ∈ existing then st
  else
    let issues :=
      if cpf_d ≠ [] ∧ mat ≠ [] ∧ key ∈ st.seen then ri.2 ++ ["Duplicado (CPF+Matrícula)"]
      else ri.2
    if issues ≠ [] then { st with rows_err := st.rows_err ++ [(row, issues)] }
    else { st with rows_ok := st.rows_ok ++ [row],
                   seen := if cpf_d ≠ [] ∧ mat ≠ [] then st.seen ++ [key] else st.seen }

/-- Everything the main loop does to one non-blank page text before the
dedupe step: field extraction (abstracted as `extractF`), the name-field
OCR repair, `clean_and_normalize`, and the `--relax-required` filter. -/
def processPage (ext : ExtDeps) (cfg : Config) (extractF : List Char → RecordRow)
    (relax force : Bool) (text : List Char) : RecordRow × List String :=
  let raw := extractF text
  let raw := fix_names_if_needed extractF (ext.ocrPage text) force raw
  let ri := clean_and_normalize ext cfg raw
  if relax then (ri.1, ri.2.filter (fun e => !(e.startsWith "Campo obrigatório ausente")))
  else ri

/-- One iteration of the page loop: a page whose stripped text is empty is
skipped with only a warning; every other page is processed and classified. -/
def pageStep (ext : ExtDeps) (cfg : Config) (extractF : List Char → RecordRow)
    (existing : List DKey) (relax force : Bool) (st : RunState) (text : List Char) :
    RunState :=
  if pyStrip text = [] then st
  else classifyStep existing st (processPage ext cfg extractF relax force text)

/-- The whole run over the pages of all documents, in order.  (A document
whose extraction fails contributes no pages; the per-document `continue`
is the empty sublist here.) -/
def runPages (ext : ExtDeps) (cfg : Config) (extractF : List Char → RecordRow)
    (existing : List DKey) (relax force : Bool) (st : RunState)
    (pages : List (List Char)) : RunState :=
  pages.foldl (pageStep ext cfg extractF existing relax force) st

/-! ## Text acquisition -/

/-- `"\n".join(pages)`. -/
def joinNL (pages : List (List Char)) : List Char := List.intercalate ['\n'] pages

/-- `iter_page_texts` (the per-page acquisition the main loop uses): the
stripped native text of every page.  Both branches of its 30-character
check return the same list — the source never escalates here. -/
def iter_page_texts (pages : List (List Char)) : List (List Char) :=
  let texts := pages.map pyStrip
  if 30 ≤ (texts.map List.length).sum then texts else texts

/-- `extract_text_from_pdf` (the whole-document helper): under 30
characters of native text, run one whole-document OCR pass (`ocr = none`
when no backend is available or it fails) and keep the longer text. -/
def extract_text_from_pdf (pages : List (List Char))
    (ocr : Option (List (List Char))) : List Char :=
  let text := pyStrip (joinNL pages)
  if 30 ≤ text.length then text
  else
    match ocr with
    | none => text
    | some p2 =>
      let text2 := pyStrip (joinNL p2)
      if text.length < text2.length then text2 else text

/-! ## Concrete instantiations used by the closed theorems -/

/-- A trivial instantiation of the external collaborators. -/
def ext0 : ExtDeps := ⟨id, id, id, fun _ => none, fun _ => none⟩

/-- A configuration with no required fields and empty normalization maps. -/
def cfg0 : Config := ⟨[], fun _ => none, fun _ => none⟩

/-- An extractor that finds nothing on any page. -/
def extract0 : List Char → RecordRow := fun _ _ => none

/-- The empty run state. -/
def st0 : RunState := ⟨[], [], []⟩

/-- The canonical CPF mask `XXX.XXX.XXX-XX`. -/
def isCanonicalCPF : List Char → Bool
  | [c0, c1, c2, p1, c3, c4, c5, p2, c6, c7, c8, p3, c9, c10] =>
    c0.isDigit && c1.isDigit && c2.isDigit && p1 == '.' &&
      c3.isDigit && c4.isDigit && c5.isDigit && p2 == '.' &&
      c6.isDigit && c7.isDigit && c8.isDigit && p3 == '-' &&
      c9.isDigit && c10.isDigit
  | _ => false

/-- No two adjacent collapse-class characters (the run structure the
collapsing regex leaves behind). -/
def noPP : List Char → Bool
  | c1 :: c2 :: rest => !(isWsRun c1 && isWsRun c2) && noPP (c2 :: rest)
  | _ => true

/-- The subscriber number `normalize_phone` ends up with when the raw
number cleans to 10 or 11 digits: drop the two leading digits, then
re-pad to nine digits with a leading `9` when only eight remain. -/
def phoneSplitNum (fone : Option (List Char)) : List Char :=
  let f := clean_digits (fone.getD [])
  if f.length = 10 then '9' :: f.drop 2 else f.drop 2

/-! # Lemmas

Everything from here on is a theorem; the shared helper lemmas come
first, the claim theorems and their closed witnesses afterwards. -/

/-! ## Generalities about `clean_digits` -/

theorem clean_digits_idem (s : List Char) :
    clean_digits (clean_digits s) = clean_digits s := by
  apply List.filter_eq_self.mpr
  intro a ha
  exact (List.mem_filter.mp ha).2

theorem isDigit_of_mem_clean_digits {s : List Char} {c : Char}
    (h : c ∈ clean_digits s) : c.isDigit = true :=
  (List.mem_filter.mp h).2

/-! ## The check-digit arithmetic -/

theorem dig_lt_ten (l : List Char) : dig l < 10 := by
  have h : (weightedSum l (l.length + 1) * 10) % 11 < 11 := Nat.mod_lt _ (by omega)
  simp only [dig]
  split <;> omega

theorem repr_toList_of_lt_ten {n : Nat} (h : n < 10) :
    (Nat.repr n).toList = [Nat.digitChar n] := by
  interval_cases n <;> rfl

theorem length_eq_eleven {l : List Char} (h : l.length = 11) :
    ∃ a0 a1 a2 a3 a4 a5 a6 a7 a8 a9 a10,
      l = [a0, a1, a2, a3, a4, a5, a6, a7, a8, a9, a10] := by
  obtain ⟨a0, l, rfl⟩ := List.exists_of_length_succ l (show _ = 10 + 1 from h)
  replace h : l.length = 10 := by simpa using h
  obtain ⟨a1, l, rfl⟩ := List.exists_of_length_succ l (show _ = 9 + 1 from h)
  replace h : l.length = 9 := by simpa using h
  obtain ⟨a2, l, rfl⟩ := List.exists_of_length_succ l (show _ = 8 + 1 from h)
  replace h : l.length = 8 := by simpa using h
  obtain ⟨a3, l, rfl⟩ := List.exists_of_length_succ l (show _ = 7 + 1 from h)
  replace h : l.length = 7 := by simpa using h
  obtain ⟨a4, l, rfl⟩ := List.exists_of_length_succ l (show _ = 6 + 1 from h)
  replace h : l.length = 6 := by simpa using h
  obtain ⟨a5, l, rfl⟩ := List.exists_of_length_succ l (show _ = 5 + 1 from h)
  replace h : l.length = 5 := by simpa using h
  obtain ⟨a6, l, rfl⟩ := List.exists_of_length_succ l (show _ = 4 + 1 from h)
  replace h : l.length = 4 := by simpa using h
  obtain ⟨a7, l, rfl⟩ := List.exists_of_length_succ l (show _ = 3 + 1 from h)
  replace h : l.length = 3 := by simpa using h
  obtain ⟨a8, l, rfl⟩ := List.exists_of_length_succ l (show _ = 2 + 1 from h)
  replace h : l.length = 2 := by simpa using h
  obtain ⟨a9, l, rfl⟩ := List.exists_of_length_succ l (show _ = 1 + 1 from h)
  replace h : l.length = 1 := by simpa using h
  obtain ⟨a10, l, rfl⟩ := List.exists_of_length_succ l (show _ = 0 + 1 from h)
  replace h : l.length = 0 := by simpa using h
  rw [List.length_eq_zero] at h
  subst h
  exact ⟨a0, a1, a2, a3, a4, a5, a6, a7, a8, a9, a10, rfl⟩

theorem repr_dig (l : List Char) :
    (Nat.repr (dig l)).toList = [Nat.digitChar (dig l)] :=
  repr_toList_of_lt_ten (dig_lt_ten l)

set_option maxHeartbeats 1600000 in
/-- The acceptance test of `cpf_is_valid` on eleven cleaned digits: not
all equal, and the two final characters are the rendered check digits —
with the second check digit computed over the first *ten* digits, since
the nested call appends exactly the character the tenth digit must be. -/
theorem cpf_is_valid_core (a0 a1 a2 a3 a4 a5 a6 a7 a8 a9 a10 : Char)
    (hc : clean_digits [a0, a1, a2, a3, a4, a5, a6, a7, a8, a9, a10] =
      [a0, a1, a2, a3, a4, a5, a6, a7, a8, a9, a10]) :
    cpf_is_valid [a0, a1, a2, a3, a4, a5, a6, a7, a8, a9, a10] = true ↔
      (¬ (∀ c ∈ [a0, a1, a2, a3, a4, a5, a6, a7, a8, a9, a10], c = a0) ∧
        a9 = Nat.digitChar (dig [a0, a1, a2, a3, a4, a5, a6, a7, a8]) ∧
        a10 = Nat.digitChar (dig [a0, a1, a2, a3, a4, a5, a6, a7, a8, a9])) := by
  simp only [cpf_is_valid, hc]
  have hlen : ([a0, a1, a2, a3, a4, a5, a6, a7, a8, a9, a10] : List Char).length = 11 := rfl
  rw [hlen, if_neg (show ¬ (11 ≠ 11) by norm_num)]
  split
  case isTrue hrep =>
    have hall := (List.eq_replicate_iff.mp hrep).2
    simp only [List.headI] at hall
    constructor
    · intro h; exact absurd h (by simp)
    · rintro ⟨hnall, -, -⟩; exact absurd hall hnall
  case isFalse hrep =>
    have e1 : (List.drop (11 - 2) [a0, a1, a2, a3, a4, a5, a6, a7, a8, a9, a10] : List Char)
        = [a9, a10] := rfl
    rw [e1, repr_dig]
    have e2 : ([a0, a1, a2, a3, a4, a5, a6, a7, a8, a9, a10] : List Char).take 9
        = [a0, a1, a2, a3, a4, a5, a6, a7, a8] := rfl
    rw [e2, repr_dig]
    simp only [List.singleton_append, decide_eq_true_eq, List.cons.injEq, and_true]
    constructor
    · rintro ⟨rfl, h10⟩
      refine ⟨?_, rfl, h10⟩
      intro hall
      apply hrep
      apply List.eq_replicate_iff.mpr
      exact ⟨rfl, by simpa [List.headI] using hall⟩
    · rintro ⟨-, rfl, h10⟩
      exact ⟨rfl, h10⟩

set_option maxHeartbeats 1600000 in
theorem normalize_cpf_isSome_iff (s : List Char) :
    (normalize_cpf s).isSome = true ↔ cpfSpecAccepts s := by
  by_cases hlen : (clean_digits s).length = 11
  · obtain ⟨a0, a1, a2, a3, a4, a5, a6, a7, a8, a9, a10, hEq⟩ := length_eq_eleven hlen
    have hc : clean_digits [a0, a1, a2, a3, a4, a5, a6, a7, a8, a9, a10] =
        [a0, a1, a2, a3, a4, a5, a6, a7, a8, a9, a10] := by
      rw [← hEq]; exact clean_digits_idem s
    simp only [normalize_cpf, cpfSpecAccepts, hEq]
    have hlen' : ([a0, a1, a2, a3, a4, a5, a6, a7, a8, a9, a10] : List Char).length = 11 := rfl
    have g9 : ([a0, a1, a2, a3, a4, a5, a6, a7, a8, a9, a10] : List Char).getD 9 ' ' = a9 := rfl
    have g10 : ([a0, a1, a2, a3, a4, a5, a6, a7, a8, a9, a10] : List Char).getD 10 ' ' = a10 := rfl
    rw [hlen', g9, g10]
    by_cases hval : cpf_is_valid [a0, a1, a2, a3, a4, a5, a6, a7, a8, a9, a10] = true
    · rw [if_neg (by simp [hval])]
      have hcore := (cpf_is_valid_core a0 a1 a2 a3 a4 a5 a6 a7 a8 a9 a10 hc).mp hval
      simp only [Option.isSome_some, true_iff]
      exact ⟨trivial, hcore.1, hcore.2.1, hcore.2.2⟩
    · rw [if_pos (by simp [hval])]
      simp only [Option.isSome_none, Bool.false_eq_true, false_iff]
      rintro ⟨-, hnall, h9, h10⟩
      exact hval ((cpf_is_valid_core a0 a1 a2 a3 a4 a5 a6 a7 a8 a9 a10 hc).mpr ⟨hnall, h9, h10⟩)
  · constructor
    · intro h
      exfalso
      simp only [normalize_cpf] at h
      rw [if_pos (Or.inl hlen)] at h
      simp at h
    · rintro ⟨h11, -⟩
      exact absurd h11 hlen

theorem normalize_cpf_eq_some {s r : List Char} (h : normalize_cpf s = some r) :
    r = cpfFormat (clean_digits s) ∧ (clean_digits s).length = 11 := by
  by_cases hc : ((clean_digits s).length ≠ 11 ∨ ¬ cpf_is_valid (clean_digits s) = true)
  · simp only [normalize_cpf] at h
    rw [if_pos hc] at h
    exact absurd h (by simp)
  · push_neg at hc
    simp only [normalize_cpf] at h
    rw [if_neg (by push_neg; exact hc)] at h
    exact ⟨(Option.some.injEq _ _ ▸ h).symm, hc.1⟩

theorem isCanonicalCPF_format {d : List Char} (h : d.length = 11)
    (hdig : ∀ c ∈ d, c.isDigit = true) : isCanonicalCPF (cpfFormat d) = true := by
  obtain ⟨a0, a1, a2, a3, a4, a5, a6, a7, a8, a9, a10, hEq⟩ := length_eq_eleven h
  subst hEq
  have e : cpfFormat [a0, a1, a2, a3, a4, a5, a6, a7, a8, a9, a10] =
      [a0, a1, a2, '.', a3, a4, a5, '.', a6, a7, a8, '-', a9, a10] := rfl
  rw [e]
  have h0 := hdig a0 (by simp)
  have h1 := hdig a1 (by simp)
  have h2 := hdig a2 (by simp)
  have h3 := hdig a3 (by simp)
  have h4 := hdig a4 (by simp)
  have h5 := hdig a5 (by simp)
  have h6 := hdig a6 (by simp)
  have h7 := hdig a7 (by simp)
  have h8 := hdig a8 (by simp)
  have h9 := hdig a9 (by simp)
  have h10 := hdig a10 (by simp)
  simp [isCanonicalCPF, h0, h1, h2, h3, h4, h5, h6, h7, h8, h9, h10]

theorem normalize_cpf_replicate (c : Char) (hdig : c.isDigit = true) :
    normalize_cpf (List.replicate 11 c) = none := by
  have hcd : clean_digits (List.replicate 11 c) = List.replicate 11 c := by
    apply List.filter_eq_self.mpr
    intro a ha
    rw [List.eq_of_mem_replicate ha]
    exact hdig
  have hval : cpf_is_valid (List.replicate 11 c) = false := by
    simp only [cpf_is_valid, hcd, List.length_replicate]
    rw [if_neg (by norm_num)]
    rw [if_pos]
    have : (List.replicate 11 c).headI = c := rfl
    rw [this]
  have hnv : ¬ cpf_is_valid (List.replicate 11 c) = true := by rw [hval]; simp
  simp only [normalize_cpf, hcd]
  rw [if_pos (Or.inr hnv)]

/-- C1: `normalize_cpf` accepts exactly the strings whose digits-only
form has eleven digits, not all identical, with both check digits
matching the weighted modulo-11 algorithm computed over the first nine
and the first ten digits respectively (remainder 10 mapped to 0); on
acceptance the result is the canonical `XXX.XXX.XXX-XX` rendering of
those digits, and a string of eleven identical digits is always
rejected. -/
theorem C1_normalize_cpf_characterization (s : List Char) :
    ((normalize_cpf s).isSome = true ↔ cpfSpecAccepts s)
    ∧ (∀ r, normalize_cpf s = some r →
        r = cpfFormat (clean_digits s) ∧ isCanonicalCPF r = true)
    ∧ (∀ c, c.isDigit = true → s = List.replicate 11 c → normalize_cpf s = none) := by
  refine ⟨normalize_cpf_isSome_iff s, ?_, ?_⟩
  · intro r h
    obtain ⟨hr, hlen⟩ := normalize_cpf_eq_some h
    subst hr
    exact ⟨rfl, isCanonicalCPF_format hlen (fun c hc => isDigit_of_mem_clean_digits hc)⟩
  · rintro c hc rfl
    exact normalize_cpf_replicate c hc

/-- Witness for C1: the example CPF of the specification is accepted, and
eleven ones are rejected. -/
theorem C1_normalize_cpf_witness :
    (normalize_cpf (String.toList "123.456.789-09")).isSome = true
    ∧ normalize_cpf (List.replicate 11 '1') = none :=
  ⟨(C1_normalize_cpf_characterization _).1.mpr (by decide),
   (C1_normalize_cpf_characterization _).2.2 '1' (by decide) rfl⟩

/-! ## C3: the missing whole-document OCR escalation -/

/-- C3 (code bug): `iter_page_texts` — the per-page acquisition the main
loop uses — returns the stripped native page texts unchanged for *every*
document: both branches of its under-30-characters check are the same
list, so no OCR pass is ever invoked there.  The whole-document helper
`extract_text_from_pdf` does implement the claimed escalation (shown here
on the same failing input), but the main loop never calls it. -/
theorem C3_no_ocr_escalation :
    (∀ pages, iter_page_texts pages = pages.map pyStrip)
    ∧ iter_page_texts [String.toList "hi"] = [String.toList "hi"]
    ∧ ((iter_page_texts [String.toList "hi"]).map List.length).sum < 30
    ∧ extract_text_from_pdf [String.toList "hi"]
        (some [String.toList "this text is long enough to win"]) =
      String.toList "this text is long enough to win" := by
  refine ⟨?_, by decide, by decide, by decide⟩
  intro pages
  simp only [iter_page_texts, ite_self]

/-! ## C5/C6: the phone normalizer -/

/-- C5 counterexample: with no DDD and the eleven-digit subscriber number
`"11987654321"`, the returned DDD is `"98"` — the first two digits of the
number *after* the leading area code `"11"` was dropped — not the first
two digits `"11"` of the raw subscriber number as the claim states. -/
theorem C5_phone_ddd_counterexample :
    (normalize_phone none (some (String.toList "11987654321"))).1 =
      some (String.toList "98")
    ∧ ¬ ((normalize_phone none (some (String.toList "11987654321"))).1 =
      some ((clean_digits (String.toList "11987654321")).take 2)) := by decide

/-- C5 (amended): when the subscriber number cleans to 10 or 11 digits
and no valid two-digit DDD was supplied, `normalize_phone` drops the
number's two leading digits, pads the remainder with a leading `9` when
eight digits remain (so the final number has nine digits), formats it as
`NNNNN-NNNN`, and returns as DDD the first two digits of that *processed*
number (not of the raw subscriber number). -/
theorem C5_phone_split (ddd fone : Option (List Char))
    (hd : ¬ (pyTruthy ddd = true ∧ (clean_digits (ddd.getD [])).length = 2))
    (hf : pyTruthy fone = true)
    (hl : (clean_digits (fone.getD [])).length = 10 ∨
      (clean_digits (fone.getD [])).length = 11) :
    normalize_phone ddd fone =
      (some ((phoneSplitNum fone).take 2),
        some ((phoneSplitNum fone).take 5 ++ '-' :: (phoneSplitNum fone).drop 5))
    ∧ (phoneSplitNum fone).length = 9 := by
  rcases fone with _ | f0
  · simp [pyTruthy] at hf
  simp only [Option.getD] at hl
  have hne : (clean_digits f0).isEmpty = false := by
    rcases hl with h | h <;> (cases he : clean_digits f0 <;> simp_all)
  have hnum : phoneSplitNum (some f0) =
      (if (clean_digits f0).length = 10 then '9' :: (clean_digits f0).drop 2
        else (clean_digits f0).drop 2) := rfl
  have hlen9 : (phoneSplitNum (some f0)).length = 9 := by
    rw [hnum]
    rcases hl with h | h <;> simp [h, List.length_drop]
  refine ⟨?_, hlen9⟩
  have hf0 : f0.isEmpty = false := by simpa [pyTruthy] using hf
  rcases ddd with _ | d0
  · rcases hl with h | h <;>
      simp [normalize_phone, phoneSplitNum, pyTruthy, hf0, hne, h, List.length_drop]
  · by_cases hde : d0.isEmpty = true
    · rcases hl with h | h <;>
        simp [normalize_phone, phoneSplitNum, pyTruthy, hde, hf0, hne, h,
          List.length_drop]
    · have h2 : (clean_digits d0).length ≠ 2 := by
        intro h2
        exact hd ⟨by simp [pyTruthy, hde], by simpa using h2⟩
      rcases hl with h | h <;>
        simp [normalize_phone, phoneSplitNum, pyTruthy, hde, h2, hf0, hne, h,
          List.length_drop]

/-- Witness for C5: no DDD and the ten-digit number `"1187654321"` give
DDD `"98"` and number `"98765-4321"`. -/
theorem C5_phone_split_witness :
    normalize_phone none (some (String.toList "1187654321")) =
      (some (String.toList "98"), some (String.toList "98765-4321"))
    ∧ (phoneSplitNum (some (String.toList "1187654321"))).length = 9 := by
  have h := C5_phone_split none (some (String.toList "1187654321"))
    (by decide) (by decide) (Or.inl (by decide))
  exact ⟨by rw [h.1]; decide, h.2⟩

/-- C6: DDD `"11"` with the nine-digit number `"987654321"` yields DDD
`"11"` and the canonically formatted `"98765-4321"`; a bare eight-digit
`"98765432"` is left-padded to `"998765432"` and formatted
`"99876-5432"`. -/
theorem C6_phone_examples :
    normalize_phone (some (String.toList "11")) (some (String.toList "987654321")) =
      (some (String.toList "11"), some (String.toList "98765-4321"))
    ∧ isCelCanonical (String.toList "98765-4321") = true
    ∧ normalize_phone none (some (String.toList "98765432")) =
      (some (String.toList "99"), some (String.toList "99876-5432"))
    ∧ (String.toList "99876-5432" =
        (String.toList "998765432").take 5 ++ '-' :: (String.toList "998765432").drop 5) := by
  decide

/-! ## C2/C4/C10: the page loop and dedupe classification -/

theorem read_existing_keys_aux
    (cells : List (Option (List Char) × Option (List Char))) (acc : List DKey)
    (h : ∀ k ∈ acc, k.1 ≠ [] ∧ k.2 ≠ []) :
    ∀ k ∈ cells.foldl
      (fun acc vc =>
        let cpf_d := clean_digits (vc.1.getD [])
        let mat := pyStrip (vc.2.getD [])
        if cpf_d ≠ [] ∧ mat ≠ [] then acc ++ [(cpf_d, mat)] else acc) acc,
      k.1 ≠ [] ∧ k.2 ≠ [] := by
  induction cells generalizing acc with
  | nil => simpa using h
  | cons c cs ih =>
    intro k hk
    simp only [List.foldl_cons] at hk
    refine ih _ ?_ k hk
    intro k' hk'
    by_cases hc : clean_digits (c.1.getD []) ≠ [] ∧ pyStrip (c.2.getD []) ≠ []
    · simp only [if_pos hc] at hk'
      rcases List.mem_append.mp hk' with h' | h'
      · exact h k' h'
      · simp only [List.mem_singleton] at h'
        subst h'
        exact hc
    · simp only [if_neg hc] at hk'
      exact h k' hk'

/-- C4: a record whose non-empty (CPF digits, registration) key is in the
prior-output key set is silently skipped (the state is unchanged); a
record whose key is not prior but was seen earlier in the same run is not
skipped — it is filed as rejected with a `"Duplicado"` issue appended;
a key with an empty component takes part in no dedupe at all, the record
being filed purely by its issue list; and every key the prior-output
reader produces has both components non-empty. -/
theorem C4_dedupe_classification (existing : List DKey) (st : RunState)
    (row : RecordRow) (issues : List String) :
    ((keyOf row).1 ≠ [] → (keyOf row).2 ≠ [] → keyOf row ∈ existing →
      classifyStep existing st (row, issues) = st)
    ∧ ((keyOf row).1 ≠ [] → (keyOf row).2 ≠ [] → keyOf row ∉ existing →
        keyOf row ∈ st.seen →
        classifyStep existing st (row, issues) =
          { st with rows_err :=
              st.rows_err ++ [(row, issues ++ ["Duplicado (CPF+Matrícula)"])] })
    ∧ (((keyOf row).1 = [] ∨ (keyOf row).2 = []) →
        classifyStep existing st (row, issues) =
          (if issues ≠ [] then { st with rows_err := st.rows_err ++ [(row, issues)] }
           else { st with rows_ok := st.rows_ok ++ [row] }))
    ∧ (∀ cells, ∀ k ∈ read_existing_keys cells, k.1 ≠ [] ∧ k.2 ≠ []) := by
  refine ⟨?_, ?_, ?_, ?_⟩
  · intro h1 h2 hmem
    simp only [classifyStep]
    rw [if_pos ⟨h1, h2, hmem⟩]
  · intro h1 h2 hnmem hseen
    simp only [classifyStep]
    rw [if_neg (show ¬ ((keyOf row).1 ≠ [] ∧ (keyOf row).2 ≠ [] ∧
        ((keyOf row).1, (keyOf row).2) ∈ existing) by
      rintro ⟨-, -, hmem⟩; exact hnmem hmem)]
    rw [if_pos (show (keyOf row).1 ≠ [] ∧ (keyOf row).2 ≠ [] ∧
        ((keyOf row).1, (keyOf row).2) ∈ st.seen from ⟨h1, h2, hseen⟩)]
    rw [if_pos (show issues ++ ["Duplicado (CPF+Matrícula)"] ≠ [] by simp)]
  · intro h
    have hno : ∀ (P : Prop), ¬ ((keyOf row).1 ≠ [] ∧ (keyOf row).2 ≠ [] ∧ P) := by
      rintro P ⟨h1, h2, -⟩; rcases h with h | h; exacts [h1 h, h2 h]
    simp only [classifyStep]
    rw [if_neg (hno (((keyOf row).1, (keyOf row).2) ∈ existing))]
    rw [if_neg (hno (((keyOf row).1, (keyOf row).2) ∈ st.seen))]
    by_cases hi : issues ≠ []
    · rw [if_pos hi, if_pos hi]
    · rw [if_neg hi, if_neg hi]
      rw [if_neg (show ¬ ((keyOf row).1 ≠ [] ∧ (keyOf row).2 ≠ []) by
        rintro ⟨h1, h2⟩; rcases h with h | h; exacts [h1 h, h2 h])]
  · intro cells k hk
    exact read_existing_keys_aux cells [] (by simp) k hk

/-- Witness for C4: a record whose key `(["1"], ["M"])` is the one prior
key is skipped without touching the state. -/
theorem C4_dedupe_witness :
    classifyStep [(['1'], ['M'])] st0
      ((fun k => if k = "cpf" then some ['1']
        else if k = "titular_matricula" then some ['M'] else none), []) = st0 :=
  (C4_dedupe_classification [(['1'], ['M'])] st0
      (fun k => if k = "cpf" then some ['1']
        else if k = "titular_matricula" then some ['M'] else none) []).1
    (by decide) (by decide) (by decide)

/-- C10: the same-run key set only ever grows by the key of a record
filed with an empty issue list (and then the record goes to the accepted
rows); a record carrying any issue — including one that was flagged as a
same-run duplicate — leaves the key set unchanged, so a key that is
absent before a rejected record is still absent after it and a later page
with that key is not flagged as its duplicate. -/
theorem C10_seen_only_accepted (existing : List DKey) (st : RunState)
    (row : RecordRow) (issues : List String) :
    ((classifyStep existing st (row, issues)).seen = st.seen
      ∨ (issues = []
          ∧ (classifyStep existing st (row, issues)).seen = st.seen ++ [keyOf row]
          ∧ (classifyStep existing st (row, issues)).rows_ok = st.rows_ok ++ [row]))
    ∧ (issues ≠ [] → (classifyStep existing st (row, issues)).seen = st.seen)
    ∧ (∀ k : DKey, k ∉ st.seen → issues ≠ [] →
        k ∉ (classifyStep existing st (row, issues)).seen) := by
  have main : (classifyStep existing st (row, issues)).seen = st.seen
      ∨ (issues = []
          ∧ (classifyStep existing st (row, issues)).seen = st.seen ++ [keyOf row]
          ∧ (classifyStep existing st (row, issues)).rows_ok = st.rows_ok ++ [row]) := by
    simp only [classifyStep]
    by_cases hskip : (keyOf row).1 ≠ [] ∧ (keyOf row).2 ≠ [] ∧
        ((keyOf row).1, (keyOf row).2) ∈ existing
    · rw [if_pos hskip]; left; rfl
    · rw [if_neg hskip]
      by_cases hdup : (keyOf row).1 ≠ [] ∧ (keyOf row).2 ≠ [] ∧
          ((keyOf row).1, (keyOf row).2) ∈ st.seen
      · rw [if_pos hdup]
        rw [if_pos (show issues ++ ["Duplicado (CPF+Matrícula)"] ≠ [] by simp)]
        left; rfl
      · rw [if_neg hdup]
        by_cases hi : issues ≠ []
        · rw [if_pos hi]; left; rfl
        · rw [if_neg hi]
          push_neg at hi
          by_cases hk : (keyOf row).1 ≠ [] ∧ (keyOf row).2 ≠ []
          · rw [if_pos hk]; right; exact ⟨hi, rfl, rfl⟩
          · rw [if_neg hk]; left; rfl
  have second : issues ≠ [] → (classifyStep existing st (row, issues)).seen = st.seen := by
    intro hi
    rcases main with h | ⟨he, -, -⟩
    · exact h
    · exact absurd he hi
  refine ⟨main, second, ?_⟩
  intro k hk hi
  rw [second hi]
  exact hk

/-- Witness for C10: a record rejected with one issue leaves the key set
(and a fresh key's absence) untouched. -/
theorem C10_seen_witness :
    (classifyStep [] st0
      ((fun k => if k = "cpf" then some ['1']
        else if k = "titular_matricula" then some ['M'] else none),
        ["CPF inválido/ausente"])).seen = st0.seen :=
  (C10_seen_only_accepted [] st0
      (fun k => if k = "cpf" then some ['1']
        else if k = "titular_matricula" then some ['M'] else none)
      ["CPF inválido/ausente"]).2.1 (by decide)

/-- C2 counterexample: a page whose extracted text is blank (one space)
is dropped without any output record although its key is in no prior-key
set — the loop `continue`s past it with only a log warning, so the claim
"every page yields a record, nothing is dropped except prior duplicates"
fails at this page. -/
theorem C2_blank_page_counterexample :
    pageStep ext0 cfg0 extract0 [] false false st0 [' '] = st0
    ∧ pyStrip [' '] = ([] : List Char)
    ∧ ([' '] : List Char) ≠ []
    ∧ st0.rows_ok.length + st0.rows_err.length = 0 := by
  refine ⟨?_, by decide, by decide, rfl⟩
  simp only [pageStep]
  rw [if_pos (by decide)]

/-- C2 (amended): every page with non-blank stripped text either is
silently skipped because its non-empty dedupe key is in the prior-output
key set, or contributes exactly one record: accepted, or rejected with a
non-empty issue list. -/
theorem C2_page_emission (ext : ExtDeps) (cfg : Config)
    (extractF : List Char → RecordRow) (existing : List DKey) (relax force : Bool)
    (st : RunState) (text : List Char) (h : pyStrip text ≠ []) :
    ((keyOf (processPage ext cfg extractF relax force text).1).1 ≠ []
        ∧ (keyOf (processPage ext cfg extractF relax force text).1).2 ≠ []
        ∧ keyOf (processPage ext cfg extractF relax force text).1 ∈ existing
        ∧ pageStep ext cfg extractF existing relax force st text = st)
    ∨ ((pageStep ext cfg extractF existing relax force st text).rows_ok =
          st.rows_ok ++ [(processPage ext cfg extractF relax force text).1]
        ∧ (pageStep ext cfg extractF existing relax force st text).rows_err = st.rows_err)
    ∨ (∃ is, is ≠ []
        ∧ (pageStep ext cfg extractF existing relax force st text).rows_ok = st.rows_ok
        ∧ (pageStep ext cfg extractF existing relax force st text).rows_err =
            st.rows_err ++ [((processPage ext cfg extractF relax force text).1, is)]) := by
  simp only [pageStep, if_neg h]
  generalize processPage ext cfg extractF relax force text = ri
  obtain ⟨row, issues⟩ := ri
  simp only [classifyStep]
  by_cases hskip : (keyOf row).1 ≠ [] ∧ (keyOf row).2 ≠ [] ∧
      ((keyOf row).1, (keyOf row).2) ∈ existing
  · rw [if_pos hskip]
    exact Or.inl ⟨hskip.1, hskip.2.1, hskip.2.2, rfl⟩
  · rw [if_neg hskip]
    by_cases hdup : (keyOf row).1 ≠ [] ∧ (keyOf row).2 ≠ [] ∧
        ((keyOf row).1, (keyOf row).2) ∈ st.seen
    · rw [if_pos hdup]
      rw [if_pos (show issues ++ ["Duplicado (CPF+Matrícula)"] ≠ [] by simp)]
      exact Or.inr (Or.inr ⟨issues ++ ["Duplicado (CPF+Matrícula)"], by simp, rfl, rfl⟩)
    · rw [if_neg hdup]
      by_cases hi : issues ≠ []
      · rw [if_pos hi]
        exact Or.inr (Or.inr ⟨issues, hi, rfl, rfl⟩)
      · rw [if_neg hi]
        exact Or.inr (Or.inl ⟨rfl, rfl⟩)

/-- Witness for C2: a non-blank page through the trivial extractor (no
fields found anywhere) is emitted — here as a rejected record. -/
theorem C2_page_emission_witness :
    pyStrip (String.toList "x") ≠ []
    ∧ (((keyOf (processPage ext0 cfg0 extract0 false false (String.toList "x")).1).1 ≠ []
        ∧ (keyOf (processPage ext0 cfg0 extract0 false false (String.toList "x")).1).2 ≠ []
        ∧ keyOf (processPage ext0 cfg0 extract0 false false (String.toList "x")).1 ∈
            ([] : List DKey)
        ∧ pageStep ext0 cfg0 extract0 [] false false st0 (String.toList "x") = st0)
      ∨ ((pageStep ext0 cfg0 extract0 [] false false st0 (String.toList "x")).rows_ok =
            st0.rows_ok ++ [(processPage ext0 cfg0 extract0 false false (String.toList "x")).1]
          ∧ (pageStep ext0 cfg0 extract0 [] false false st0 (String.toList "x")).rows_err =
              st0.rows_err)
      ∨ (∃ is, is ≠ []
          ∧ (pageStep ext0 cfg0 extract0 [] false false st0 (String.toList "x")).rows_ok =
              st0.rows_ok
          ∧ (pageStep ext0 cfg0 extract0 [] false false st0 (String.toList "x")).rows_err =
              st0.rows_err ++
                [((processPage ext0 cfg0 extract0 false false (String.toList "x")).1, is)])) :=
  ⟨by decide,
   C2_page_emission ext0 cfg0 extract0 [] false false st0 (String.toList "x") (by decide)⟩

/-! ## C9: every record's name fields pass through the homoglyph table -/

theorem upd_same (r : RecordRow) (k : String) (v : Option (List Char)) :
    upd r k v k = v := by simp [upd]

theorem upd_other (r : RecordRow) (k : String) (v : Option (List Char)) (k' : String)
    (h : k' ≠ k) : upd r k v k' = r k' := by simp [upd, h]

theorem nameFold_eval (row0 : RecordRow) (k : String) :
    (nameKeys.foldl (fun r k => updWith r k fix_homoglyphs) row0) k =
      if k ∈ nameKeys then fix_homoglyphs (row0 k) else row0 k := by
  by_cases h1 : k = "titular_nome"
  · subst h1; simp [nameKeys, updWith, upd]
  · by_cases h2 : k = "beneficiario_nome"
    · subst h2; simp [nameKeys, updWith, upd]
    · by_cases h3 : k = "mae_nome"
      · subst h3; simp [nameKeys, updWith, upd]
      · simp [nameKeys, updWith, upd, h1, h2, h3]

theorem clean_and_normalize_names (ext : ExtDeps) (cfg : Config) (row0 : RecordRow)
    (k : String) (hk : k ∈ nameKeys) :
    (clean_and_normalize ext cfg row0).1 k =
      (fix_homoglyphs (row0 k)).map normWsCore := by
  have hne : k ≠ "cpf" ∧ k ≠ "nascimento" ∧ k ≠ "data_admissao" ∧ k ≠ "sexo" ∧
      k ≠ "beneficiario_inclusao" ∧ k ≠ "beneficiario_cnpj_lotacao" ∧ k ≠ "cep" ∧
      k ≠ "pis" ∧ k ≠ "ddd" ∧ k ≠ "celular" := by
    simp only [nameKeys, List.mem_cons, List.not_mem_nil, or_false] at hk
    rcases hk with rfl | rfl | rfl <;> exact ⟨by decide, by decide, by decide, by decide,
      by decide, by decide, by decide, by decide, by decide, by decide⟩
  obtain ⟨n1, n2, n3, n4, n5, n6, n7, n8, n9, n10⟩ := hne
  have hfold := nameFold_eval row0 k
  rw [if_pos hk] at hfold
  simp only [clean_and_normalize, dateStep, List.foldl_cons, List.foldl_nil]
  simp [upd, ite_apply, n1, n2, n3, n4, n5, n6, n7, n8, n9, n10, hfold]

/-- C9: whatever row the extraction and the (optional, possibly
OCR-re-run) name repair produce, the finalized record's three name fields
are exactly the homoglyph-table image of that row's name fields (then
whitespace-swept): `clean_and_normalize` applies the substitution table
to every record, OCR-repaired or not. -/
theorem C9_names_homoglyph_fixed (ext : ExtDeps) (cfg : Config)
    (extractF : List Char → RecordRow) (relax force : Bool) (text : List Char) :
    ((processPage ext cfg extractF relax force text).1 "mae_nome" =
      (fix_homoglyphs ((fix_names_if_needed extractF (ext.ocrPage text) force
          (extractF text)) "mae_nome")).map normWsCore)
    ∧ ((processPage ext cfg extractF relax force text).1 "beneficiario_nome" =
      (fix_homoglyphs ((fix_names_if_needed extractF (ext.ocrPage text) force
          (extractF text)) "beneficiario_nome")).map normWsCore)
    ∧ ((processPage ext cfg extractF relax force text).1 "titular_nome" =
      (fix_homoglyphs ((fix_names_if_needed extractF (ext.ocrPage text) force
          (extractF text)) "titular_nome")).map normWsCore) := by
  have hproj : (processPage ext cfg extractF relax force text).1 =
      (clean_and_normalize ext cfg
        (fix_names_if_needed extractF (ext.ocrPage text) force (extractF text))).1 := by
    simp only [processPage]
    split <;> rfl
  rw [hproj]
  exact ⟨clean_and_normalize_names ext cfg _ "mae_nome" (by decide),
    clean_and_normalize_names ext cfg _ "beneficiario_nome" (by decide),
    clean_and_normalize_names ext cfg _ "titular_nome" (by decide)⟩

/-! ## C7/C8: the whitespace normalizer -/

theorem invisChar_not_invisible (a : Char) : invisChar a ∉ INVISIBLE_SPACES := by
  by_cases h : a ∈ INVISIBLE_SPACES
  · simp only [invisChar, if_pos h]
    decide
  · simpa only [invisChar, if_neg h] using h

theorem foldRepl_cons (L : List Char) :
    ∀ (c : Char) (cs : List Char),
      L.foldl (fun t ch => t.map (fun x => if x = ch then ' ' else x)) (c :: cs) =
        (L.foldl (fun a ch => if a = ch then ' ' else a) c) ::
          L.foldl (fun t ch => t.map (fun x => if x = ch then ' ' else x)) cs := by
  induction L with
  | nil => intro c cs; rfl
  | cons x L' ih =>
    intro c cs
    simp only [List.foldl_cons, List.map_cons]
    exact ih _ _

theorem replaceInvisibles_eq_map (s : List Char) :
    replaceInvisibles s = s.map invisChar := by
  induction s with
  | nil => rfl
  | cons c cs ih =>
    show INVISIBLE_SPACES.foldl
      (fun t ch => t.map (fun x => if x = ch then ' ' else x)) (c :: cs) = _
    have ih' : INVISIBLE_SPACES.foldl
        (fun t ch => t.map (fun x => if x = ch then ' ' else x)) cs = cs.map invisChar := ih
    have hd : INVISIBLE_SPACES.foldl (fun a ch => if a = ch then ' ' else a) c =
        invisChar c := by
      by_cases h : c ∈ INVISIBLE_SPACES
      · simp only [INVISIBLE_SPACES, List.mem_cons, List.not_mem_nil, or_false] at h
        rcases h with rfl | rfl | rfl | rfl | rfl | rfl | rfl | rfl | rfl | rfl | rfl | rfl <;>
          decide
      · have h' : ∀ x ∈ INVISIBLE_SPACES, ¬ c = x := fun x hx he => h (he ▸ hx)
        simp only [INVISIBLE_SPACES, List.mem_cons, List.not_mem_nil, or_false,
          forall_eq_or_imp, forall_eq] at h'
        obtain ⟨g1, g2, g3, g4, g5, g6, g7, g8, g9, g10, g11, g12⟩ := h'
        simp only [INVISIBLE_SPACES] at h
        simp only [INVISIBLE_SPACES, List.foldl_cons, List.foldl_nil, invisChar,
          if_neg g1, if_neg g2, if_neg g3, if_neg g4, if_neg g5, if_neg g6, if_neg g7,
          if_neg g8, if_neg g9, if_neg g10, if_neg g11, if_neg g12, if_neg h]
    rw [foldRepl_cons, List.map_cons, ih', hd]

theorem collapse_eq_collapseRuns (l : List Char) :
    collapse l = collapseRuns isWsRun l := by
  show collapse l = collapseAux isWsRun false l
  induction l with
  | nil => rfl
  | cons c1 t ih =>
    cases t with
    | nil => cases hp : isWsRun c1 <;> simp [collapse, collapseAux, hp]
    | cons c2 r =>
      cases hp1 : isWsRun c1 <;> cases hp2 : isWsRun c2 <;>
        (simp only [collapse, collapseAux, hp1, hp2, Bool.and_self, Bool.and_false,
            Bool.false_and, Bool.and_true, Bool.true_and, if_true, if_false] <;>
          rw [ih] <;> simp [collapseAux, hp2])

theorem mem_collapse {l : List Char} {c : Char} (h : c ∈ collapse l) :
    c = ' ' ∨ c ∈ l := by
  induction l with
  | nil => simp [collapse] at h
  | cons c1 t ih =>
    cases t with
    | nil =>
      simp only [collapse, List.mem_singleton] at h
      subst h
      split
      · exact Or.inl rfl
      · exact Or.inr (by simp)
    | cons c2 r =>
      simp only [collapse] at h
      split at h
      · rcases ih h with h' | h'
        · exact Or.inl h'
        · exact Or.inr (List.mem_cons_of_mem _ h')
      · rcases List.mem_cons.mp h with h' | h'
        · subst h'
          split
          · exact Or.inl rfl
          · exact Or.inr (by simp)
        · rcases ih h' with h'' | h''
          · exact Or.inl h''
          · exact Or.inr (List.mem_cons_of_mem _ h'')

theorem wsRun_mem_collapse {l : List Char} {c : Char} (h : c ∈ collapse l)
    (hw : isWsRun c = true) : c = ' ' := by
  induction l with
  | nil => simp [collapse] at h
  | cons c1 t ih =>
    cases t with
    | nil =>
      simp only [collapse, List.mem_singleton] at h
      subst h
      split
      · rfl
      · simp_all
    | cons c2 r =>
      simp only [collapse] at h
      split at h
      · exact ih h
      · rcases List.mem_cons.mp h with h' | h'
        · subst h'
          split
          · rfl
          · simp_all
        · exact ih h'

theorem collapse_head (c : Char) (cs : List Char) :
    ∃ t, collapse (c :: cs) = (if isWsRun c then ' ' else c) :: t := by
  induction cs generalizing c with
  | nil => exact ⟨[], rfl⟩
  | cons c2 r ih =>
    by_cases h12 : isWsRun c = true ∧ isWsRun c2 = true
    · obtain ⟨t, ht⟩ := ih c2
      refine ⟨t, ?_⟩
      simp only [collapse, h12.1, h12.2, Bool.and_self, if_true, ht, h12.1]
    · refine ⟨collapse (c2 :: r), ?_⟩
      simp only [collapse]
      rw [if_neg (by rcases Bool.eq_false_or_eq_true (isWsRun c) with h | h <;>
        rcases Bool.eq_false_or_eq_true (isWsRun c2) with h' | h' <;>
          simp_all)]

theorem noPP_collapse (l : List Char) : noPP (collapse l) = true := by
  induction l with
  | nil => rfl
  | cons c1 t ih =>
    cases t with
    | nil => simp [collapse, noPP]
    | cons c2 r =>
      simp only [collapse]
      split
      · exact ih
      case isFalse hnb =>
        obtain ⟨t', ht'⟩ := collapse_head c2 r
        rw [ht']
        rw [ht'] at ih
        simp only [noPP, Bool.and_eq_true] at ih ⊢
        refine ⟨?_, ih⟩
        rcases Bool.eq_false_or_eq_true (isWsRun c1) with h1 | h1 <;>
          rcases Bool.eq_false_or_eq_true (isWsRun c2) with h2 | h2 <;>
            simp_all

theorem collapse_fix {l : List Char} (hmem : ∀ c ∈ l, isWsRun c = true → c = ' ')
    (hnp : noPP l = true) : collapse l = l := by
  induction l with
  | nil => rfl
  | cons c1 t ih =>
    cases t with
    | nil =>
      simp only [collapse]
      split
      case isTrue h => rw [← hmem c1 (by simp) h]
      case isFalse h => rfl
    | cons c2 r =>
      simp only [noPP, Bool.and_eq_true] at hnp
      simp only [collapse]
      rw [if_neg (by
        rcases Bool.eq_false_or_eq_true (isWsRun c1) with h1 | h1 <;>
          rcases Bool.eq_false_or_eq_true (isWsRun c2) with h2 | h2 <;> simp_all)]
      have ht : collapse (c2 :: r) = c2 :: r :=
        ih (fun c hc hw => hmem c (List.mem_cons_of_mem _ hc) hw) hnp.2
      rw [ht]
      split
      case isTrue h => rw [← hmem c1 (by simp) h]
      case isFalse h => rfl

theorem noPP_tail {c : Char} {cs : List Char} (h : noPP (c :: cs) = true) :
    noPP cs = true := by
  cases cs with
  | nil => rfl
  | cons c2 r =>
    simp only [noPP, Bool.and_eq_true] at h
    exact h.2

theorem noPP_dropWhile (q : Char → Bool) {l : List Char} (h : noPP l = true) :
    noPP (l.dropWhile q) = true := by
  induction l with
  | nil => simpa using h
  | cons c cs ih =>
    rw [List.dropWhile_cons]
    split
    · exact ih (noPP_tail h)
    · exact h

theorem mem_dropWhile (q : Char → Bool) {l : List Char} {c : Char}
    (h : c ∈ l.dropWhile q) : c ∈ l := by
  induction l with
  | nil => simpa using h
  | cons c1 cs ih =>
    rw [List.dropWhile_cons] at h
    split at h
    · exact List.mem_cons_of_mem _ (ih h)
    · exact h

theorem dropWhile_head_false {q : Char → Bool} {l t : List Char} {c : Char}
    (h : l.dropWhile q = c :: t) : q c = false := by
  induction l with
  | nil => simp at h
  | cons c1 cs ih =>
    rw [List.dropWhile_cons] at h
    split at h
    · exact ih h
    case isFalse hf =>
      cases h
      simpa using hf

theorem mem_rstripWs {l : List Char} {c : Char} (h : c ∈ rstripWs l) : c ∈ l := by
  induction l with
  | nil => simpa [rstripWs] using h
  | cons c1 cs ih =>
    simp only [rstripWs] at h
    split at h
    · split at h
      · simp at h
      · simp only [List.mem_singleton] at h
        subst h
        simp
    · rcases List.mem_cons.mp h with h' | h'
      · subst h'
        simp
      · exact List.mem_cons_of_mem _ (ih h')

theorem rstripWs_cons_shape (c1 : Char) (cs : List Char) :
    rstripWs (c1 :: cs) = [] ∨ ∃ t, rstripWs (c1 :: cs) = c1 :: t := by
  simp only [rstripWs]
  split
  · split
    · exact Or.inl rfl
    · exact Or.inr ⟨[], rfl⟩
  · exact Or.inr ⟨rstripWs cs, rfl⟩

theorem noPP_rstripWs {l : List Char} (h : noPP l = true) :
    noPP (rstripWs l) = true := by
  induction l with
  | nil => rfl
  | cons c1 cs ih =>
    simp only [rstripWs]
    split
    · split
      · rfl
      · rfl
    case isFalse hne =>
      have ihs : noPP (rstripWs cs) = true := ih (noPP_tail h)
      cases cs with
      | nil => simp [rstripWs] at hne
      | cons c2 r =>
        rcases rstripWs_cons_shape c2 r with he | ⟨t, ht⟩
        · rw [he] at hne
          simp at hne
        · rw [ht] at ihs ⊢
          simp only [noPP, Bool.and_eq_true] at h ihs ⊢
          exact ⟨h.1, ihs⟩

theorem rstripWs_idem (l : List Char) : rstripWs (rstripWs l) = rstripWs l := by
  induction l with
  | nil => rfl
  | cons c1 cs ih =>
    simp only [rstripWs]
    split
    · split
      · rfl
      case isFalse hsp => simp [rstripWs, hsp]
    case isFalse hne =>
      simp only [rstripWs, ih]
      rw [if_neg hne]

theorem pyStrip_idem (l : List Char) : pyStrip (pyStrip l) = pyStrip l := by
  unfold pyStrip
  cases hy : rstripWs (l.dropWhile pyIsSpace) with
  | nil => simp [rstripWs]
  | cons c t =>
    have hshape : ∃ ys, l.dropWhile pyIsSpace = c :: ys := by
      cases hys : l.dropWhile pyIsSpace with
      | nil =>
        rw [hys] at hy
        simp [rstripWs] at hy
      | cons c' ys =>
        rw [hys] at hy
        rcases rstripWs_cons_shape c' ys with he | ⟨t', ht'⟩
        · rw [he] at hy
          simp at hy
        · rw [ht'] at hy
          injection hy with h1 h2
          subst h1
          exact ⟨ys, rfl⟩
    obtain ⟨ys, hys⟩ := hshape
    have hqc : pyIsSpace c = false := dropWhile_head_false hys
    rw [List.dropWhile_cons, if_neg (by simp [hqc])]
    calc rstripWs (c :: t)
        = rstripWs (rstripWs (l.dropWhile pyIsSpace)) := by rw [hy]
      _ = rstripWs (l.dropWhile pyIsSpace) := rstripWs_idem _
      _ = c :: t := hy

theorem mem_pyStrip {l : List Char} {c : Char} (h : c ∈ pyStrip l) : c ∈ l :=
  mem_dropWhile _ (mem_rstripWs h)

theorem noPP_pyStrip {l : List Char} (h : noPP l = true) :
    noPP (pyStrip l) = true :=
  noPP_rstripWs (noPP_dropWhile _ h)

theorem map_id_of_mem {f : Char → Char} {l : List Char} (h : ∀ a ∈ l, f a = a) :
    l.map f = l := by
  induction l with
  | nil => rfl
  | cons c cs ih =>
    rw [List.map_cons, h c (by simp), ih (fun a ha => h a (List.mem_cons_of_mem _ ha))]

theorem normWsCore_eq_amended (s : List Char) : normWsCore s = normWsAmendedC7 s := by
  simp only [normWsCore, normWsAmendedC7, replaceInvisibles_eq_map,
    collapse_eq_collapseRuns]

theorem normWsCore_idem (s : List Char) : normWsCore (normWsCore s) = normWsCore s := by
  have hmem1 : ∀ c ∈ normWsCore s, c ∉ INVISIBLE_SPACES := by
    intro c hc
    have h1 : c ∈ collapse (replaceInvisibles s) := mem_pyStrip hc
    rcases mem_collapse h1 with rfl | h2
    · decide
    · rw [replaceInvisibles_eq_map] at h2
      obtain ⟨a, -, rfl⟩ := List.mem_map.mp h2
      exact invisChar_not_invisible a
  have h2 : replaceInvisibles (normWsCore s) = normWsCore s := by
    rw [replaceInvisibles_eq_map]
    exact map_id_of_mem (fun a ha => by simp [invisChar, hmem1 a ha])
  have h3 : collapse (normWsCore s) = normWsCore s := by
    apply collapse_fix
    · intro c hc hw
      exact wsRun_mem_collapse (mem_pyStrip hc) hw
    · exact noPP_pyStrip (noPP_collapse (replaceInvisibles s))
  have h4 : pyStrip (normWsCore s) = normWsCore s :=
    pyStrip_idem (collapse (replaceInvisibles s))
  show pyStrip (collapse (replaceInvisibles (normWsCore s))) = normWsCore s
  rw [h2, h3, h4]

/-- C7 counterexample: on `"a\nb"` the code keeps the interior newline
(`[ \t\r\f\v]+` does not match `\n`), while the claim's "collapse every
run of standard whitespace" turns it into `"a b"`. -/
theorem C7_newline_counterexample :
    normalize_ws (some (String.toList "a\nb")) = some (String.toList "a\nb")
    ∧ normWsClaimC7 (String.toList "a\nb") = String.toList "a b"
    ∧ normalize_ws (some (String.toList "a\nb")) ≠
        some (normWsClaimC7 (String.toList "a\nb")) := by decide

/-- C7 (amended): `normalize_ws` replaces each listed invisible-space
code point with a space, collapses every run of space/tab/CR/FF/VT — the
newline excluded, interior newlines are preserved — to a single ASCII
space, and trims whitespace from both ends; a null (non-string) input
passes through unchanged. -/
theorem C7_normalize_ws_spec (s : Option (List Char)) :
    normalize_ws s = s.map normWsAmendedC7 := by
  cases s with
  | none => rfl
  | some t =>
    show some (normWsCore t) = some (normWsAmendedC7 t)
    rw [normWsCore_eq_amended]

/-- C8: the whitespace normalizer is idempotent, on strings and on the
null passthrough alike. -/
theorem C8_normalize_ws_idempotent (s : Option (List Char)) :
    normalize_ws (normalize_ws s) = normalize_ws s := by
  cases s with
  | none => rfl
  | some t =>
    show some (normWsCore (normWsCore t)) = some (normWsCore t)
    rw [normWsCore_idem]
